import Mathlib

/-!
Verification development for the tariff-tracker event-normalization and
country-code reconciliation pipeline (src/utils/data_processing.py and the
geo-aggregation fragment of src/utils/visualization.py).

Modelling conventions.  Raw API records are Python dicts whose fields may be
absent, null, a string, or a list; they are embedded as structures of
`Option`-typed fields, where `none` models an absent key (and, where the two
are observationally identical in the source, a null value).  Python dict
truthiness (`if not tariff_data`) over the modelled key set is emptiness of
all fields.  Python floats are idealized as rationals; `float(str)` is
modelled by a decimal-literal parser.  The country-code mappings that the
source loads from a CSV file (with a hard-coded fallback) are passed as an
explicit `String → Option String` parameter; the hard-coded fallback tables
from the source are reproduced verbatim as concrete instances.
-/

/-- A value stored under one of the list-coercible keys of a `tariffs_v2`
mapping: a comma-delimited string, an actual list, or JSON null.  Scalar
values of other types (numbers) are outside the modelled domain. -/
inductive PyListVal where
  | pstr (s : String)
  | plist (l : List String)
  | pnull
deriving DecidableEq, Repr

/-- A value stored under `main_tariff_rate`: a number (int or float,
idealized as a rational) or a string.  JSON null is folded into the absent
case since `dict.get` with default `None` identifies the two. -/
inductive RateVal where
  | num (q : ℚ)
  | str (s : String)
deriving DecidableEq, Repr

/-- The `tariffs_v2` sub-mapping of a raw event, restricted to the keys the
source reads.  Every field is optional; `none` is an absent key. -/
structure RawTariff where
  imposing_country_code : Option String := none
  imposing_country_name : Option String := none
  targeted_country_codes : Option (List String) := none
  targeted_country_names : Option (List String) := none
  measure_type : Option String := none
  affected_industries : Option PyListVal := none
  affected_products : Option PyListVal := none
  hs_product_categories : Option PyListVal := none
  main_tariff_rate : Option RateVal := none
  tariff_rates : Option PyListVal := none
  announcement_date : Option String := none
  implementation_date : Option String := none
  expiration_date : Option String := none
  policy_objective : Option String := none
  legal_basis : Option String := none
  relevance_score : Option String := none
  summary : Option String := none
deriving DecidableEq, Repr

/-- The `tariffs_v2` mapping with no keys at all: the Python empty dict,
which is falsy under `if not tariff_data`. -/
def RawTariff.empty : RawTariff := {}

/-- A raw article record (keys read by `clean_article_data`). -/
structure RawArticle where
  id : Option String := none
  title : Option String := none
  link : Option String := none
  media : Option String := none
  published_date : Option String := none
  name_source : Option String := none
  description : Option String := none
  content : Option String := none
  authors : Option String := none
  language : Option String := none
deriving DecidableEq, Repr

/-- A raw event record as consumed by `clean_event_data`, restricted to the
keys the source reads.  `tariffs_v2 = none` models both an absent key and a
null value (both make `event.get` yield a falsy value of the same
observable effect). -/
structure RawEvent where
  id : Option String := none
  extraction_date : Option String := none
  event_type : Option String := none
  global_event_type : Option String := none
  tariffs_v2 : Option RawTariff := none
  articles : List RawArticle := []
deriving DecidableEq, Repr

/-- A cleaned article as built by `clean_article_data`: the six required
keys defaulted to the empty string, the four optional keys kept only when
present. -/
structure CleanedArticle where
  id : String := ""
  title : String := ""
  link : String := ""
  media : String := ""
  published_date : String := ""
  name_source : String := ""
  description : Option String := none
  content : Option String := none
  authors : Option String := none
  language : Option String := none
deriving DecidableEq, Repr

/-- A cleaned event as built by `clean_event_data`.  The four list-coercible
fields are `Option (List String)` because the source's coercion can leave a
Python `None` in place (see `coerceListField`). -/
structure CleanedEvent where
  id : String := ""
  extraction_date : String := ""
  event_type : String := ""
  global_event_type : String := ""
  imposing_country : String := ""
  imposing_country_code : String := ""
  targeted_countries : List String := []
  targeted_country_codes : List String := []
  measure_type : String := ""
  affected_industries : Option (List String) := some []
  affected_products : Option (List String) := some []
  hs_product_categories : Option (List String) := some []
  main_tariff_rate : Option RateVal := none
  tariff_rates : Option (List String) := some []
  announcement_date : String := ""
  implementation_date : String := ""
  expiration_date : String := ""
  policy_objective : String := ""
  legal_basis : String := ""
  relevance_score : String := ""
  summary : String := ""
  articles : List CleanedArticle := []
deriving DecidableEq, Repr

/-- Split a character list at every occurrence of a separator character,
keeping empty segments: the semantics of Python `str.split(sep)` for a
one-character separator (all separators used by the source — `/`, a space
and `,` — are one character). -/
def splitOnChar (c : Char) : List Char → List (List Char)
  | [] => [[]]
  | x :: xs =>
    if x = c then [] :: splitOnChar c xs
    else
      match splitOnChar c xs with
      | [] => [[x]]
      | g :: gs => (x :: g) :: gs

/-- Python `str.split(sep)` on strings, for a one-character separator. -/
def pySplit (sep : Char) (s : String) : List String :=
  (splitOnChar sep s.toList).map String.mk

/-- Python `str.strip()`: drop leading and trailing whitespace. -/
def pyStrip (s : String) : String :=
  String.mk
    (((s.toList.dropWhile Char.isWhitespace).reverse.dropWhile
        Char.isWhitespace).reverse)

/-- Python `sep in s` for a one-character needle. -/
def containsChar (s : String) (c : Char) : Bool :=
  s.toList.any (fun x => x = c)

/-- Pad a digit string on the left with zeros to width two: Python
`str.zfill(2)`. -/
def zfill2 (s : String) : String :=
  String.mk (List.replicate (2 - s.length) '0') ++ s

/-- Whether a string is exactly four decimal digits (the year part of the
`^\d4/\d1,2(/\d1,2)?$` pattern in `normalize_date`). -/
def isYear4 (s : String) : Bool :=
  s.length == 4 && s.toList.all Char.isDigit

/-- Whether a string is one or two decimal digits (a month/day part of the
slash pattern in `normalize_date`). -/
def isMonthDay (s : String) : Bool :=
  (s.length == 1 || s.length == 2) && s.toList.all Char.isDigit

/-- The slash-date branch of `normalize_date`: if the whole string matches
`YYYY/M[/D]` (regex match plus split on `/`), produce the zero-padded
hyphenated form, else `none`. -/
def slashDate (s : String) : Option String :=
  match pySplit '/' s with
  | [y, mo] =>
      if isYear4 y && isMonthDay mo then some (y ++ "-" ++ zfill2 mo) else none
  | [y, mo, d] =>
      if isYear4 y && isMonthDay mo && isMonthDay d then
        some (y ++ "-" ++ zfill2 mo ++ "-" ++ zfill2 d)
      else none
  | _ => none

/-- `normalize_date` from src/utils/data_processing.py: empty in, empty
out; a full-string `YYYY/M[/D]` match is re-rendered zero-padded with
hyphens; otherwise any string containing a space is cut at its first space
(`date_str.split(" ")[0]`); anything else passes through. -/
def normalizeDate (s : String) : String :=
  if s = "" then ""
  else
    match slashDate s with
    | some out => out
    | none => if containsChar s ' ' then (pySplit ' ' s).headD "" else s

/-- The comma-split-and-trim list comprehension of `clean_event_data`:
split on commas, strip each segment, drop segments that strip to empty. -/
def splitTrim (s : String) : List String :=
  ((pySplit ',' s).map pyStrip).filter (fun x => x != "")

/-- The string-vs-list handling applied to each of the four list-coercible
`tariffs_v2` fields: an absent key becomes the empty list (the `dict.get`
default), a string is comma-split, a list passes through, and a null value
passes through as Python `None` (the `isinstance(x, str)` test fails and no
other branch runs). -/
def coerceListField : Option PyListVal → Option (List String)
  | none => some []
  | some (.pstr s) => some (splitTrim s)
  | some (.plist l) => some l
  | some .pnull => none

/-- Python `list.index` for an element known to occur: index of the first
occurrence (and the list length when absent, which the source never
reaches). -/
def listIndex (l : List String) (x : String) : Nat :=
  match l with
  | [] => 0
  | y :: ys => if y = x then 0 else listIndex ys x + 1

/-- Resolution of one targeted-country code in `clean_event_data`: a code
found in the mapping yields the mapped name; otherwise the raw names list
is consulted at `targeted_country_codes.index(code)` — the index of the
first occurrence of the code — and when that index is out of range the code
itself is used. -/
def resolveCode (m : String → Option String) (t : RawTariff) (codes : List String)
    (code : String) : String :=
  match m code with
  | some name => name
  | none => (t.targeted_country_names.getD []).getD (listIndex codes code) code

/-- The targeted-countries block of `clean_event_data`: with a non-empty
codes list, one appended name per code (the source's `for code in
targeted_country_codes` loop); with an empty or absent codes list, the raw
names list taken whole. -/
def resolveTargeted (m : String → Option String) (t : RawTariff) : List String :=
  let codes := t.targeted_country_codes.getD []
  if codes.isEmpty then t.targeted_country_names.getD []
  else codes.foldl (fun acc code => acc ++ [resolveCode m t codes code]) []

/-- `clean_article_data` on one article. -/
def cleanArticle (a : RawArticle) : CleanedArticle :=
  { id := a.id.getD ""
    title := a.title.getD ""
    link := a.link.getD ""
    media := a.media.getD ""
    published_date := a.published_date.getD ""
    name_source := a.name_source.getD ""
    description := a.description
    content := a.content
    authors := a.authors
    language := a.language }

/-- `clean_article_data`: per-article cleaning (the empty-input early
return coincides with mapping over the empty list). -/
def cleanArticles (l : List RawArticle) : List CleanedArticle :=
  l.map cleanArticle

/-- The per-record body of `clean_event_data`, run for every event whose
`tariffs_v2` mapping is present and non-empty. -/
def cleanOne (m : String → Option String) (ev : RawEvent) (t : RawTariff) :
    CleanedEvent :=
  let code := t.imposing_country_code.getD ""
  let imposing :=
    if code ≠ "" then
      match m code with
      | some name => name
      | none => t.imposing_country_name.getD ""
    else t.imposing_country_name.getD ""
  { id := ev.id.getD ""
    extraction_date := normalizeDate (ev.extraction_date.getD "")
    event_type := ev.event_type.getD ""
    global_event_type := ev.global_event_type.getD ""
    imposing_country := imposing
    imposing_country_code := code
    targeted_countries := resolveTargeted m t
    targeted_country_codes := t.targeted_country_codes.getD []
    measure_type := t.measure_type.getD ""
    affected_industries := coerceListField t.affected_industries
    affected_products := coerceListField t.affected_products
    hs_product_categories := coerceListField t.hs_product_categories
    main_tariff_rate := t.main_tariff_rate
    tariff_rates := coerceListField t.tariff_rates
    announcement_date := normalizeDate (t.announcement_date.getD "")
    implementation_date := normalizeDate (t.implementation_date.getD "")
    expiration_date := normalizeDate (t.expiration_date.getD "")
    policy_objective := t.policy_objective.getD ""
    legal_basis := t.legal_basis.getD ""
    relevance_score := t.relevance_score.getD ""
    summary := t.summary.getD ""
    articles := cleanArticles ev.articles }

/-- `clean_event_data` from src/utils/data_processing.py: iterate the batch
in order; an event whose `tariffs_v2` is absent (or null) or is the empty
mapping is skipped by `if not tariff_data: continue`; every other event
contributes one cleaned record.  The mapping `m` is the code-to-name table
returned by `load_country_codes`. -/
def cleanEventData (m : String → Option String) : List RawEvent → List CleanedEvent
  | [] => []
  | ev :: rest =>
    match ev.tariffs_v2 with
    | none => cleanEventData m rest
    | some t =>
      if t = RawTariff.empty then cleanEventData m rest
      else cleanOne m ev t :: cleanEventData m rest

/-- The `default_mapping` dictionary of `load_country_codes`
(src/utils/data_processing.py), used when the ISO-3166 CSV is unavailable;
the CSV itself is not part of the repository sources. -/
def defaultMappingList : List (String × String) :=
  [("US", "United States"), ("GB", "United Kingdom"), ("EU", "European Union"),
   ("CN", "China"), ("RU", "Russia"), ("JP", "Japan"), ("DE", "Germany"),
   ("FR", "France"), ("CA", "Canada"), ("AU", "Australia"), ("BR", "Brazil"),
   ("IN", "India"), ("MX", "Mexico"), ("KR", "South Korea"), ("IT", "Italy"),
   ("ES", "Spain"), ("NL", "Netherlands"), ("CH", "Switzerland"),
   ("SA", "Saudi Arabia"), ("TR", "Turkey"), ("ZA", "South Africa"),
   ("SG", "Singapore"), ("MY", "Malaysia"), ("ID", "Indonesia"),
   ("TH", "Thailand"), ("AE", "United Arab Emirates")]

/-- The `default_mapping` as a lookup function. -/
def defaultMapping (c : String) : Option String :=
  defaultMappingList.lookup c

/-- The retention predicate implicit in `clean_event_data`'s
`if not tariff_data: continue`: the event is kept exactly when its
`tariffs_v2` mapping is present and non-empty. -/
def keepEvent (ev : RawEvent) : Bool :=
  match ev.tariffs_v2 with
  | none => false
  | some t => if t = RawTariff.empty then false else true

lemma cleanEventData_eq_filter_map (m : String → Option String)
    (events : List RawEvent) :
    cleanEventData m events =
      (events.filter keepEvent).map
        (fun ev => cleanOne m ev (ev.tariffs_v2.getD RawTariff.empty)) := by
  induction events with
  | nil => rfl
  | cons ev rest ih =>
    cases h : ev.tariffs_v2 with
    | none => simp [cleanEventData, h, keepEvent, ih]
    | some t =>
      by_cases ht : t = RawTariff.empty
      · simp [cleanEventData, h, ht, keepEvent, ih]
      · simp [cleanEventData, h, ht, keepEvent, ih]

lemma mem_cleanEventData {m : String → Option String} {events : List RawEvent}
    {e : CleanedEvent} (he : e ∈ cleanEventData m events) :
    ∃ ev t, ev ∈ events ∧ ev.tariffs_v2 = some t ∧ t ≠ RawTariff.empty ∧
      e = cleanOne m ev t := by
  rw [cleanEventData_eq_filter_map] at he
  obtain ⟨ev, hev, rfl⟩ := List.mem_map.1 he
  obtain ⟨h1, h2⟩ := List.mem_filter.1 hev
  cases h : ev.tariffs_v2 with
  | none => simp [keepEvent, h] at h2
  | some t =>
    refine ⟨ev, t, h1, h, ?_, by simp [h]⟩
    intro ht
    simp [keepEvent, h, ht] at h2

/-- C10: `clean_event_data` preserves input order: its output is exactly
the per-record cleaning of the subsequence of input events whose
tariff-detail substructure is present and non-empty, in input order; the
output is never longer than the input, and output ids come from the
corresponding retained input events. -/
theorem c10_order_preservation (m : String → Option String)
    (events : List RawEvent) :
    cleanEventData m events =
      (events.filter keepEvent).map
        (fun ev => cleanOne m ev (ev.tariffs_v2.getD RawTariff.empty)) ∧
    (cleanEventData m events).length ≤ events.length ∧
    (cleanEventData m events).map (fun e => e.id) =
      (events.filter keepEvent).map (fun ev => ev.id.getD "") := by
  refine ⟨cleanEventData_eq_filter_map m events, ?_, ?_⟩
  · rw [cleanEventData_eq_filter_map]
    calc ((events.filter keepEvent).map
            (fun ev => cleanOne m ev (ev.tariffs_v2.getD RawTariff.empty))).length
        = (events.filter keepEvent).length := List.length_map _ _
      _ ≤ events.length := List.length_filter_le _ _
  · rw [cleanEventData_eq_filter_map, List.map_map]
    exact List.map_congr_left (fun ev _ => rfl)

/-- C1 counterexample: a raw event whose `tariffs_v2` key is present but
empty is dropped by `clean_event_data` (the claim predicts one all-default
canonical event; the code's `if not tariff_data` treats the empty mapping
as falsy). -/
theorem c1_counterexample :
    cleanEventData defaultMapping
      [{ id := some "e1", tariffs_v2 := some RawTariff.empty }] = [] := rfl

/-- C1 (amended): a raw event with no tariff-detail key present is absent
from `clean_event_data`'s output, and a raw event whose tariff-detail key
is present but empty is likewise absent: both are dropped, wherever they
occur in the batch. -/
theorem c1_drop_rule (m : String → Option String) (pre post : List RawEvent)
    (ev : RawEvent)
    (h : ev.tariffs_v2 = none ∨ ev.tariffs_v2 = some RawTariff.empty) :
    cleanEventData m (pre ++ ev :: post) = cleanEventData m (pre ++ post) := by
  induction pre with
  | nil => rcases h with h | h <;> simp [cleanEventData, h]
  | cons p ps ih =>
    cases hp : p.tariffs_v2 with
    | none => simpa [cleanEventData, hp] using ih
    | some t =>
      by_cases ht : t = RawTariff.empty <;> simp [cleanEventData, hp, ht, ih]

theorem c1_witness :
    cleanEventData defaultMapping
      ([{ id := some "keep",
          tariffs_v2 := some { measure_type := some "new tariff" } }] ++
        { id := some "noTariff" } ::
        [{ id := some "emptyTariff", tariffs_v2 := some RawTariff.empty }]) =
      cleanEventData defaultMapping
        ([{ id := some "keep",
            tariffs_v2 := some { measure_type := some "new tariff" } }] ++
          [{ id := some "emptyTariff", tariffs_v2 := some RawTariff.empty }]) :=
  c1_drop_rule defaultMapping _ _ _ (Or.inl rfl)

/-- C9 counterexample: `normalize_date` does not pass every other format
through unchanged — a free-form date containing a space is truncated at its
first space. -/
theorem c9_counterexample :
    normalizeDate "March 5, 2024" = "March" ∧ "March 5, 2024" ≠ "March" :=
  ⟨rfl, by decide⟩

/-- C9 (amended): the four documented examples hold, and any other format
passes through unchanged except that a string containing a space (and not
matching the slash form) is truncated at its first space. -/
theorem c9_date_normalization :
    normalizeDate "2024-03-05 14:30:00" = "2024-03-05" ∧
    normalizeDate "2024/3" = "2024-03" ∧
    normalizeDate "2024/3/5" = "2024-03-05" ∧
    normalizeDate "" = "" ∧
    (∀ s, slashDate s = none → containsChar s ' ' = false →
      normalizeDate s = s) ∧
    (∀ s, slashDate s = none → containsChar s ' ' = true →
      normalizeDate s = (pySplit ' ' s).headD "") := by
  refine ⟨rfl, rfl, rfl, rfl, ?_, ?_⟩
  · intro s h1 h2
    unfold normalizeDate
    split
    · simp [*]
    · rw [h1]; simp [h2]
  · intro s h1 h2
    have hs : s ≠ "" := by
      intro h
      rw [h] at h2
      simp [containsChar] at h2
    unfold normalizeDate
    rw [if_neg hs, h1]
    simp [h2]

theorem c9_witness :
    normalizeDate "2024-01-10" = "2024-01-10" ∧
    normalizeDate "not a slash date" = (pySplit ' ' "not a slash date").headD "" :=
  ⟨c9_date_normalization.2.2.2.2.1 "2024-01-10" rfl rfl,
   c9_date_normalization.2.2.2.2.2 "not a slash date" rfl rfl⟩

lemma foldl_append_singleton {α β : Type} (f : α → β) (l : List α)
    (acc : List β) :
    l.foldl (fun a x => a ++ [f x]) acc = acc ++ l.map f := by
  induction l generalizing acc with
  | nil => simp
  | cons x xs ih => simp [List.foldl_cons, ih]

lemma resolveTargeted_eq_map (m : String → Option String) (t : RawTariff)
    (h : t.targeted_country_codes.getD [] ≠ []) :
    resolveTargeted m t =
      (t.targeted_country_codes.getD []).map
        (resolveCode m t (t.targeted_country_codes.getD [])) := by
  unfold resolveTargeted
  rw [if_neg (by simpa [List.isEmpty_iff] using h)]
  simpa using foldl_append_singleton _ _ []

/-- C2 counterexample: a raw event carrying only a targeted-country names
list yields a canonical event with one targeted-country name and zero
targeted-country codes — the two lengths differ (no codes are synthesized
from the names side). -/
theorem c2_counterexample :
    (cleanEventData defaultMapping
        [{ tariffs_v2 := some { targeted_country_names := some ["China"] } }]).map
      (fun e => (e.targeted_countries.length, e.targeted_country_codes.length)) =
      [(1, 0)] := rfl

/-- C2 (amended): for every canonical event produced by `clean_event_data`
whose targeted-country codes list is non-empty, the length of the
targeted-countries names list equals the length of the codes list (names
synthesized from the codes side); when no codes are present the names list
is carried over whole while the codes list stays empty, so the lengths can
differ. -/
theorem c2_length_invariant (m : String → Option String)
    (raws : List RawEvent) (e : CleanedEvent)
    (he : e ∈ cleanEventData m raws)
    (hne : e.targeted_country_codes ≠ []) :
    e.targeted_countries.length = e.targeted_country_codes.length := by
  obtain ⟨ev, t, _, _, _, rfl⟩ := mem_cleanEventData he
  have hc : (cleanOne m ev t).targeted_country_codes =
      t.targeted_country_codes.getD [] := rfl
  have ht : (cleanOne m ev t).targeted_countries = resolveTargeted m t := rfl
  rw [hc] at hne ⊢
  rw [ht, resolveTargeted_eq_map m t hne, List.length_map]

def rawSample2 : RawEvent :=
  { tariffs_v2 := some
      { targeted_country_codes := some ["CN", "XX"],
        targeted_country_names := some ["China"] } }

def cleanedSample2 : CleanedEvent :=
  { targeted_countries := ["China", "XX"],
    targeted_country_codes := ["CN", "XX"] }

theorem c2_witness :
    cleanedSample2.targeted_countries.length =
      cleanedSample2.targeted_country_codes.length :=
  c2_length_invariant defaultMapping [rawSample2] cleanedSample2 (by decide)
    (by decide)

/-- C3 counterexample: with a duplicated unresolvable code, the positional
fallback uses `codes.index(code)` — the index of the FIRST occurrence — so
the third position reuses the first position's name (`NameA`) instead of
its own (`NameC`). -/
theorem c3_counterexample :
    (cleanEventData defaultMapping
        [{ tariffs_v2 := some
            { targeted_country_codes := some ["XX", "YY", "XX"],
              targeted_country_names := some ["NameA", "NameB", "NameC"] } }]).map
      (fun e => e.targeted_countries) = [["NameA", "NameB", "NameA"]] ∧
    ["NameA", "NameB", "NameA"] ≠ ["NameA", "NameB", "NameC"] :=
  ⟨rfl, by decide⟩

/-- C3 (amended): for every raw event with a non-empty targeted-country
codes list, `clean_event_data` resolves each code to a name via the country
reference; when resolution fails it falls back to the raw names list at the
positional index of the FIRST occurrence of that code in the codes list;
when that index is out of range it uses the code itself as display name;
and when no codes list exists at all, the raw names list becomes the entire
target set. -/
theorem c3_targeted_resolution (m : String → Option String)
    (raws : List RawEvent) (e : CleanedEvent)
    (he : e ∈ cleanEventData m raws) :
    ∃ ev t, ev ∈ raws ∧ ev.tariffs_v2 = some t ∧
      (t.targeted_country_codes.getD [] ≠ [] →
        e.targeted_countries =
          (t.targeted_country_codes.getD []).map (fun code =>
            match m code with
            | some name => name
            | none =>
                (t.targeted_country_names.getD []).getD
                  (listIndex (t.targeted_country_codes.getD []) code) code)) ∧
      (t.targeted_country_codes.getD [] = [] →
        e.targeted_countries = t.targeted_country_names.getD []) := by
  obtain ⟨ev, t, hev, hts, _, rfl⟩ := mem_cleanEventData he
  refine ⟨ev, t, hev, hts, ?_, ?_⟩
  · intro hne
    have ht : (cleanOne m ev t).targeted_countries = resolveTargeted m t := rfl
    rw [ht, resolveTargeted_eq_map m t hne]
    exact List.map_congr_left (fun code _ => rfl)
  · intro hnil
    have ht : (cleanOne m ev t).targeted_countries = resolveTargeted m t := rfl
    rw [ht]
    unfold resolveTargeted
    rw [if_pos (by simp [List.isEmpty_iff, hnil])]

def rawSample3 : RawEvent :=
  { tariffs_v2 := some
      { targeted_country_codes := some ["XX", "YY", "XX"],
        targeted_country_names := some ["NameA", "NameB", "NameC"] } }

def cleanedSample3 : CleanedEvent :=
  { targeted_countries := ["NameA", "NameB", "NameA"],
    targeted_country_codes := ["XX", "YY", "XX"] }

theorem c3_witness :
    ∃ ev t, ev ∈ [rawSample3] ∧ ev.tariffs_v2 = some t ∧
      (t.targeted_country_codes.getD [] ≠ [] →
        cleanedSample3.targeted_countries =
          (t.targeted_country_codes.getD []).map (fun code =>
            match defaultMapping code with
            | some name => name
            | none =>
                (t.targeted_country_names.getD []).getD
                  (listIndex (t.targeted_country_codes.getD []) code) code)) ∧
      (t.targeted_country_codes.getD [] = [] →
        cleanedSample3.targeted_countries = t.targeted_country_names.getD []) :=
  c3_targeted_resolution defaultMapping [rawSample3] cleanedSample3 (by decide)

/-- C7 counterexample: a `tariffs_v2` whose `affected_industries` key holds
JSON null produces a canonical event whose `affected_industries` is Python
`None` (not a list): the `isinstance(x, str)` branch does not fire and no
other coercion runs. -/
theorem c7_counterexample :
    (cleanEventData defaultMapping
        [{ tariffs_v2 := some
            { affected_industries := some PyListVal.pnull } }]).map
      (fun e => e.affected_industries) = [none] := rfl

/-- C7 (amended): in every `clean_event_data` output, each designated list
field is obtained from the raw value by the handle-strings-vs-lists
coercion, and that coercion yields a list in exactly the claimed cases — a
comma-delimited string is split with segments stripped and empties dropped,
a list passes through, an absent value becomes the empty list — but a null
source value passes through as null (None), so the fields are lists only
when the source value is not null. -/
theorem c7_list_invariant :
    (∀ (m : String → Option String) (raws : List RawEvent) (e : CleanedEvent),
        e ∈ cleanEventData m raws →
        ∃ ev t, ev ∈ raws ∧ ev.tariffs_v2 = some t ∧
          e.affected_industries = coerceListField t.affected_industries ∧
          e.affected_products = coerceListField t.affected_products ∧
          e.hs_product_categories = coerceListField t.hs_product_categories ∧
          e.tariff_rates = coerceListField t.tariff_rates) ∧
    (∀ v, coerceListField v = none ↔ v = some PyListVal.pnull) ∧
    (∀ s, coerceListField (some (PyListVal.pstr s)) = some (splitTrim s)) ∧
    (∀ l, coerceListField (some (PyListVal.plist l)) = some l) ∧
    coerceListField none = some [] ∧
    (∀ s, "" ∉ splitTrim s) := by
  refine ⟨?_, ?_, fun s => rfl, fun l => rfl, rfl, ?_⟩
  · intro m raws e he
    obtain ⟨ev, t, hev, hts, _, rfl⟩ := mem_cleanEventData he
    exact ⟨ev, t, hev, hts, rfl, rfl, rfl, rfl⟩
  · intro v
    match v with
    | none => simp [coerceListField]
    | some (.pstr s) => simp [coerceListField]
    | some (.plist l) => simp [coerceListField]
    | some .pnull => simp [coerceListField]
  · intro s hs
    have := (List.mem_filter.1 hs).2
    simp at this

def rawSample7 : RawEvent :=
  { tariffs_v2 := some
      { affected_industries := some (PyListVal.pstr " Steel , , Autos ") } }

def cleanedSample7 : CleanedEvent :=
  { affected_industries := some ["Steel", "Autos"] }

theorem c7_witness :
    ∃ ev t, ev ∈ [rawSample7] ∧ ev.tariffs_v2 = some t ∧
      cleanedSample7.affected_industries = coerceListField t.affected_industries ∧
      cleanedSample7.affected_products = coerceListField t.affected_products ∧
      cleanedSample7.hs_product_categories =
        coerceListField t.hs_product_categories ∧
      cleanedSample7.tariff_rates = coerceListField t.tariff_rates :=
  c7_list_invariant.1 defaultMapping [rawSample7] cleanedSample7 (by decide)

/-- One row of the geo-aggregation table built by `create_world_map`:
alpha-2 code, event count, and the translated alpha-3 code. -/
structure GeoRow where
  country_code : String
  count : Nat
  iso3_code : String
deriving DecidableEq, Repr

/-- The grouping key used by the final
`groupby(["country_code", "iso3_code"])` aggregation. -/
def rowKey (r : GeoRow) : String × String := (r.country_code, r.iso3_code)

/-- Sum of the weights of the list entries whose key equals `k`: the group
sums computed by pandas `value_counts` (with weight one per occurrence) and
`groupby(...).sum()`. -/
def keyedSum {α κ : Type} [DecidableEq κ] (key : α → κ) (wt : α → Nat)
    (k : κ) : List α → Nat
  | [] => 0
  | r :: rs => (if key r = k then wt r else 0) + keyedSum key wt k rs

/-- Remove every occurrence of an element from a list. -/
def removeKey {κ : Type} [DecidableEq κ] (x : κ) : List κ → List κ
  | [] => []
  | y :: ys => if y = x then removeKey x ys else y :: removeKey x ys

/-- The distinct values of a list, in order of first appearance (the key
set enumerated by the pandas groupings; pandas then orders rows by count or
by key — an ordering none of the stated properties depend on). -/
def firstOccs {κ : Type} [DecidableEq κ] : List κ → List κ
  | [] => []
  | x :: xs => x :: removeKey x (firstOccs xs)

/-- `df["imposing_country_code"].value_counts()`: occurrence counts of the
non-null column entries, one output pair per distinct value. -/
def valueCounts (vals : List String) : List (String × Nat) :=
  (firstOccs vals).map (fun v => (v, keyedSum id (fun _ => 1) v vals))

/-- The EU member list hard-coded in `create_world_map`
(src/utils/visualization.py). -/
def euCountries : List String :=
  ["AT", "BE", "BG", "HR", "CY", "CZ", "DK", "EE", "FI", "FR", "DE", "GR",
   "HU", "IE", "IT", "LV", "LT", "LU", "MT", "NL", "PL", "PT", "RO", "SK",
   "SI", "ES", "SE"]

/-- The EU-expansion loop of `create_world_map`: a row keyed `EU` is
replaced by one row per member territory, each inheriting the full count
and its own translated code; any other row is appended unchanged. -/
def expandRows (m : String → Option String) : List GeoRow → List GeoRow
  | [] => []
  | r :: rs =>
    (if r.country_code = "EU" then
      euCountries.map (fun c => GeoRow.mk c r.count ((m c).getD c))
    else [r]) ++ expandRows m rs

/-- The `groupby(["country_code", "iso3_code"])["count"].sum()` step of
`create_world_map`: one row per distinct (alpha-2, alpha-3) pair with the
counts summed.  Pandas sorts the resulting rows by key; this model keeps
first-appearance order — every property stated below is insensitive to row
order. -/
def aggregateRows (rows : List GeoRow) : List GeoRow :=
  (firstOccs (rows.map rowKey)).map
    (fun k => GeoRow.mk k.1 (keyedSum rowKey GeoRow.count k rows) k.2)

/-- The imposing-direction data pipeline of `create_world_map`
(src/utils/visualization.py): count events per non-null
`imposing_country_code` column entry, return `None` for an empty count
table, translate each alpha-2 code via `iso2_to_iso3.get(x, x)` (the code
itself when untranslatable), expand `EU` rows into member territories, and
merge duplicate keys by summing counts.  `m` is the loaded ISO-2-to-ISO-3
mapping (CSV-backed, with the hard-coded fallback below); the column is the
events table's `imposing_country_code` column with `none` for a missing
(NaN) entry, which `value_counts` skips. -/
def createWorldMapImposing (m : String → Option String)
    (col : List (Option String)) : Option (List GeoRow) :=
  let vals := col.filterMap id
  let counts := valueCounts vals
  if counts.isEmpty then none
  else
    let withIso : List GeoRow :=
      counts.map (fun p => GeoRow.mk p.1 p.2 ((m p.1).getD p.1))
    let expanded := expandRows m withIso
    some (if expanded.isEmpty then withIso else aggregateRows expanded)

/-- The hard-coded fallback `iso2_to_iso3` mapping of `create_world_map`,
used when the ISO CSV cannot be read (the CSV is not part of the repository
sources); the synthetic `EU` and `WW` entries are present in both variants. -/
def fallbackIso2to3List : List (String × String) :=
  [("US", "USA"), ("CN", "CHN"), ("CA", "CAN"), ("MX", "MEX"), ("EU", "EUR"),
   ("GB", "GBR"), ("JP", "JPN"), ("KR", "KOR"), ("IN", "IND"), ("AU", "AUS"),
   ("BR", "BRA"), ("RU", "RUS"), ("NG", "NGA"), ("ZA", "ZAF"), ("CH", "CHE"),
   ("NO", "NOR"), ("WW", "WLD")]

/-- The fallback `iso2_to_iso3` mapping as a lookup function. -/
def fallbackIso2to3 (c : String) : Option String :=
  fallbackIso2to3List.lookup c

lemma mem_removeKey {κ : Type} [DecidableEq κ] {x b : κ} :
    ∀ {l : List κ}, b ∈ removeKey x l ↔ b ∈ l ∧ b ≠ x
  | [] => by simp [removeKey]
  | y :: ys => by
    rw [removeKey]
    by_cases h : y = x
    · rw [if_pos h, mem_removeKey (l := ys)]
      subst h
      simp only [List.mem_cons]
      constructor
      · rintro ⟨hb, hbx⟩; exact ⟨Or.inr hb, hbx⟩
      · rintro ⟨hb | hb, hbx⟩
        · exact absurd hb hbx
        · exact ⟨hb, hbx⟩
    · rw [if_neg h]
      simp only [List.mem_cons, mem_removeKey (l := ys)]
      constructor
      · rintro (rfl | ⟨hb, hbx⟩)
        · exact ⟨Or.inl rfl, h⟩
        · exact ⟨Or.inr hb, hbx⟩
      · rintro ⟨rfl | hb, hbx⟩
        · exact Or.inl rfl
        · exact Or.inr ⟨hb, hbx⟩

lemma removeKey_of_not_mem {κ : Type} [DecidableEq κ] {x : κ} :
    ∀ {l : List κ}, x ∉ l → removeKey x l = l
  | [] => fun _ => rfl
  | y :: ys => fun h => by
    have hy : ¬ y = x := fun hc => h (hc ▸ List.mem_cons_self y ys)
    rw [removeKey, if_neg hy, removeKey_of_not_mem (fun hc => h (List.mem_cons_of_mem y hc))]

lemma mem_firstOccs {κ : Type} [DecidableEq κ] {b : κ} :
    ∀ {l : List κ}, b ∈ firstOccs l ↔ b ∈ l
  | [] => Iff.rfl
  | x :: xs => by
    simp only [firstOccs, List.mem_cons, mem_removeKey, mem_firstOccs (l := xs)]
    by_cases hb : b = x
    · subst hb; simp
    · simp [hb]

lemma nodup_removeKey {κ : Type} [DecidableEq κ] (x : κ) :
    ∀ {l : List κ}, l.Nodup → (removeKey x l).Nodup
  | [], _ => by simp [removeKey]
  | y :: ys, h => by
    obtain ⟨hy, hys⟩ := List.nodup_cons.1 h
    by_cases hyx : y = x
    · rw [removeKey, if_pos hyx]; exact nodup_removeKey x hys
    · rw [removeKey, if_neg hyx]
      exact List.nodup_cons.2 ⟨fun hc => hy (mem_removeKey.1 hc).1, nodup_removeKey x hys⟩

lemma nodup_firstOccs {κ : Type} [DecidableEq κ] :
    ∀ (l : List κ), (firstOccs l).Nodup
  | [] => by simp [firstOccs]
  | x :: xs => by
    rw [firstOccs]
    refine List.nodup_cons.2 ⟨fun hc => ?_, nodup_removeKey x (nodup_firstOccs xs)⟩
    exact (mem_removeKey.1 hc).2 rfl

lemma firstOccs_of_nodup {κ : Type} [DecidableEq κ] :
    ∀ {l : List κ}, l.Nodup → firstOccs l = l
  | [], _ => rfl
  | x :: xs, h => by
    obtain ⟨hx, hxs⟩ := List.nodup_cons.1 h
    rw [firstOccs, firstOccs_of_nodup hxs, removeKey_of_not_mem hx]

lemma keyedSum_eq_zero {α κ : Type} [DecidableEq κ] {key : α → κ} {wt : α → Nat}
    {k : κ} : ∀ {rows : List α}, k ∉ rows.map key → keyedSum key wt k rows = 0
  | [], _ => rfl
  | r :: rs, h => by
    have h1 : ¬ key r = k := fun hc => h (by simp [hc])
    rw [keyedSum, if_neg h1, keyedSum_eq_zero (fun hc => h (by simp; right; simpa using hc))]

lemma le_keyedSum {α κ : Type} [DecidableEq κ] (key : α → κ) (wt : α → Nat)
    {r : α} : ∀ {rows : List α}, r ∈ rows → wt r ≤ keyedSum key wt (key r) rows
  | [], h => absurd h (List.not_mem_nil r)
  | x :: rs, h => by
    rw [keyedSum]
    rcases List.mem_cons.1 h with rfl | hr
    · rw [if_pos rfl]; exact Nat.le_add_right _ _
    · exact le_trans (le_keyedSum key wt hr) (Nat.le_add_left _ _)

lemma sum_map_removeKey {κ : Type} [DecidableEq κ] {g : κ → Nat} {a : κ} :
    ∀ {l : List κ}, l.Nodup → a ∈ l →
      g a + ((removeKey a l).map g).sum = (l.map g).sum
  | [], _, ha => absurd ha (List.not_mem_nil a)
  | x :: xs, h, ha => by
    obtain ⟨hx, hxs⟩ := List.nodup_cons.1 h
    rcases List.mem_cons.1 ha with rfl | ha
    · rw [removeKey, if_pos rfl, removeKey_of_not_mem hx]
      simp
    · have hxa : ¬ x = a := fun hc => hx (hc ▸ ha)
      rw [removeKey, if_neg hxa]
      simp only [List.map_cons, List.sum_cons]
      rw [← sum_map_removeKey hxs ha]
      omega

lemma keyedSum_partition {α κ : Type} [DecidableEq κ] (key : α → κ)
    (wt : α → Nat) :
    ∀ (rows : List α),
      ((firstOccs (rows.map key)).map (fun k => keyedSum key wt k rows)).sum =
        (rows.map wt).sum
  | [] => rfl
  | r :: rs => by
    have ih := keyedSum_partition key wt rs
    simp only [List.map_cons, firstOccs, List.sum_cons]
    have hhead : keyedSum key wt (key r) (r :: rs) =
        wt r + keyedSum key wt (key r) rs := by
      rw [keyedSum, if_pos rfl]
    have hcong :
        ((removeKey (key r) (firstOccs (rs.map key))).map
            (fun k => keyedSum key wt k (r :: rs))) =
          ((removeKey (key r) (firstOccs (rs.map key))).map
            (fun k => keyedSum key wt k rs)) := by
      refine List.map_congr_left (fun k hk => ?_)
      have hne : ¬ key r = k := fun hc => (mem_removeKey.1 hk).2 hc.symm
      rw [keyedSum, if_neg hne, Nat.zero_add]
    rw [hhead, hcong]
    by_cases hmem : key r ∈ rs.map key
    · have hF : key r ∈ firstOccs (rs.map key) := mem_firstOccs.2 hmem
      have hsum := sum_map_removeKey (g := fun k => keyedSum key wt k rs)
        (nodup_firstOccs (rs.map key)) hF
      dsimp only at hsum
      omega
    · have h0 : keyedSum key wt (key r) rs = 0 := keyedSum_eq_zero hmem
      have hrm : removeKey (key r) (firstOccs (rs.map key)) =
          firstOccs (rs.map key) :=
        removeKey_of_not_mem (fun hc => hmem (mem_firstOccs.1 hc))
      rw [h0, hrm]
      omega

lemma sum_map_ones {α : Type} : ∀ (l : List α),
    (l.map (fun _ => (1 : Nat))).sum = l.length
  | [] => rfl
  | x :: xs => by simp [sum_map_ones xs, Nat.add_comm]

lemma sum_aggregateRows (rows : List GeoRow) :
    ((aggregateRows rows).map GeoRow.count).sum = (rows.map GeoRow.count).sum := by
  unfold aggregateRows
  rw [List.map_map]
  have h : (GeoRow.count ∘ fun k : String × String =>
      GeoRow.mk k.1 (keyedSum rowKey GeoRow.count k rows) k.2) =
      fun k => keyedSum rowKey GeoRow.count k rows := rfl
  rw [h]
  exact keyedSum_partition rowKey GeoRow.count rows

lemma expandRows_of_no_eu (m : String → Option String) :
    ∀ {rows : List GeoRow}, (∀ r ∈ rows, r.country_code ≠ "EU") →
      expandRows m rows = rows
  | [], _ => rfl
  | r :: rs, h => by
    rw [expandRows, if_neg (h r (List.mem_cons_self r rs))]
    simp [expandRows_of_no_eu m (fun x hx => h x (List.mem_cons_of_mem r hx))]

/-- The pass-through property of geo rows: the translated code is
`iso2_to_iso3.get(code, code)` and the count is positive. -/
def geoOk (m : String → Option String) (r : GeoRow) : Prop :=
  r.iso3_code = (m r.country_code).getD r.country_code ∧ 1 ≤ r.count

lemma withIso_geoOk (m : String → Option String) (vals : List String) :
    ∀ r ∈ (valueCounts vals).map
      (fun p => GeoRow.mk p.1 p.2 ((m p.1).getD p.1)), geoOk m r := by
  intro r hr
  obtain ⟨p, hp, rfl⟩ := List.mem_map.1 hr
  refine ⟨rfl, ?_⟩
  obtain ⟨v, hv, rfl⟩ := List.mem_map.1 hp
  exact le_keyedSum (@id String) (fun _ => 1) (mem_firstOccs.1 hv)

lemma expandRows_geoOk (m : String → Option String) :
    ∀ {rows : List GeoRow}, (∀ r ∈ rows, geoOk m r) →
      ∀ r ∈ expandRows m rows, geoOk m r
  | [], _, r, hr => absurd hr (List.not_mem_nil r)
  | r0 :: rs, h, r, hr => by
    rw [expandRows] at hr
    rcases List.mem_append.1 hr with hr | hr
    · by_cases heu : r0.country_code = "EU"
      · rw [if_pos heu] at hr
        obtain ⟨c, _, rfl⟩ := List.mem_map.1 hr
        exact ⟨rfl, (h r0 (List.mem_cons_self r0 rs)).2⟩
      · rw [if_neg heu] at hr
        have : r = r0 := by simpa using hr
        exact this ▸ h r0 (List.mem_cons_self r0 rs)
    · exact expandRows_geoOk m (fun x hx => h x (List.mem_cons_of_mem r0 hx)) r hr

lemma aggregateRows_geoOk (m : String → Option String) {rows : List GeoRow}
    (h : ∀ r ∈ rows, geoOk m r) :
    ∀ o ∈ aggregateRows rows, geoOk m o := by
  intro o ho
  obtain ⟨k, hk, rfl⟩ := List.mem_map.1 ho
  obtain ⟨r0, hr0, hkey⟩ := List.mem_map.1 (mem_firstOccs.1 hk)
  have h1 : k.1 = r0.country_code := by rw [← hkey]; rfl
  have h2 : k.2 = r0.iso3_code := by rw [← hkey]; rfl
  constructor
  · show k.2 = (m k.1).getD k.1
    rw [h1, h2]
    exact (h r0 hr0).1
  · show 1 ≤ keyedSum rowKey GeoRow.count k rows
    have hle := le_keyedSum rowKey GeoRow.count hr0
    rw [hkey] at hle
    exact le_trans (h r0 hr0).2 hle

/-- C4 counterexample: with the source's fallback ISO mapping, a single
event whose imposing code `XX` has no alpha-3 translation produces an
output row carrying `XX` itself as the territory code — the untranslatable
code is passed through (`iso2_to_iso3.get(x, x)`), not dropped. -/
theorem c4_counterexample :
    createWorldMapImposing fallbackIso2to3 [some "XX"] =
      some [GeoRow.mk "XX" 1 "XX"] ∧
    fallbackIso2to3 "XX" = none := ⟨rfl, rfl⟩

/-- C4 (amended): in imposing-direction geo-aggregation, every output row's
territory code is `iso2_to_iso3.get(code, code)` — a code with no
resolvable alpha-3 translation is passed through under its untranslated
alpha-2 code, never dropped — and every output count is at least one (never
zero-filled). -/
theorem c4_untranslated_passthrough (m : String → Option String)
    (col : List (Option String)) (r : GeoRow)
    (hr : r ∈ (createWorldMapImposing m col).getD []) :
    r.iso3_code = (m r.country_code).getD r.country_code ∧ 1 ≤ r.count := by
  unfold createWorldMapImposing at hr
  by_cases hc : (valueCounts (col.filterMap id)).isEmpty
  · rw [if_pos hc] at hr
    simp at hr
  · rw [if_neg hc] at hr
    rw [Option.getD_some] at hr
    have hwOk := withIso_geoOk m (col.filterMap id)
    by_cases he : (expandRows m ((valueCounts (col.filterMap id)).map
        (fun p => GeoRow.mk p.1 p.2 ((m p.1).getD p.1)))).isEmpty
    · rw [if_pos he] at hr
      exact hwOk r hr
    · rw [if_neg he] at hr
      exact aggregateRows_geoOk m (expandRows_geoOk m hwOk) r hr

theorem c4_witness :
    (GeoRow.mk "US" 1 "USA").iso3_code =
      (fallbackIso2to3 (GeoRow.mk "US" 1 "USA").country_code).getD
        (GeoRow.mk "US" 1 "USA").country_code ∧
    1 ≤ (GeoRow.mk "US" 1 "USA").count :=
  c4_untranslated_passthrough fallbackIso2to3 [some "US"]
    (GeoRow.mk "US" 1 "USA") (by decide)

/-- C5: for the imposing direction, events with a missing (null) code are
skipped — dropping the null column entries changes nothing — and, in the
absence of the `EU` bloc code (the scope of the spec's conservation
property), the output counts sum to exactly the number of events carrying a
code: no double counting and no loss. -/
theorem c5_geo_conservation (m : String → Option String)
    (col : List (Option String)) (hEU : "EU" ∉ col.filterMap id) :
    createWorldMapImposing m col =
      createWorldMapImposing m ((col.filterMap id).map some) ∧
    (((createWorldMapImposing m col).getD []).map GeoRow.count).sum =
      (col.filterMap id).length := by
  constructor
  · have h : ((col.filterMap id).map some).filterMap id = col.filterMap id := by
      rw [List.filterMap_map]
      simp
    unfold createWorldMapImposing
    rw [h]
  · have hno : ∀ r ∈ (valueCounts (col.filterMap id)).map
        (fun p => GeoRow.mk p.1 p.2 ((m p.1).getD p.1)),
        r.country_code ≠ "EU" := by
      intro r hr
      obtain ⟨p, hp, rfl⟩ := List.mem_map.1 hr
      obtain ⟨v, hv, rfl⟩ := List.mem_map.1 hp
      exact fun hc => hEU (hc ▸ mem_firstOccs.1 hv)
    unfold createWorldMapImposing
    cases hv : col.filterMap id with
    | nil => rfl
    | cons v vs =>
      rw [hv] at hno
      rw [if_neg (by simp [valueCounts, firstOccs])]
      rw [Option.getD_some]
      rw [expandRows_of_no_eu m hno]
      rw [if_neg (by simp [valueCounts, firstOccs])]
      rw [sum_aggregateRows, List.map_map]
      have h1 : (GeoRow.count ∘ fun p : String × Nat =>
          GeoRow.mk p.1 p.2 ((m p.1).getD p.1)) = Prod.snd := rfl
      rw [h1]
      unfold valueCounts
      rw [List.map_map]
      have h2 : (Prod.snd ∘ fun w : String =>
          (w, keyedSum id (fun _ => 1) w (v :: vs))) =
          fun w => keyedSum id (fun _ => 1) w (v :: vs) := rfl
      rw [h2]
      have h3 := keyedSum_partition (@id String) (fun _ => 1) (v :: vs)
      rw [List.map_id] at h3
      rw [h3, sum_map_ones]

def col5 : List (Option String) := [some "US", none, some "CN", some "US"]

theorem c5_witness :
    createWorldMapImposing fallbackIso2to3 col5 =
      createWorldMapImposing fallbackIso2to3 ((col5.filterMap id).map some) ∧
    (((createWorldMapImposing fallbackIso2to3 col5).getD []).map
        GeoRow.count).sum = (col5.filterMap id).length :=
  c5_geo_conservation fallbackIso2to3 col5 (by decide)

lemma firstOccs_of_nodup_keys {rows : List GeoRow}
    (h : (rows.map rowKey).Nodup) : aggregateRows rows = rows := by
  induction rows with
  | nil => rfl
  | cons r rs ih =>
    rw [List.map_cons] at h
    obtain ⟨hr, hrs⟩ := List.nodup_cons.1 h
    unfold aggregateRows
    rw [List.map_cons, firstOccs, firstOccs_of_nodup hrs,
      removeKey_of_not_mem hr, List.map_cons]
    have hhead : GeoRow.mk (rowKey r).1
        (keyedSum rowKey GeoRow.count (rowKey r) (r :: rs)) (rowKey r).2 = r := by
      rw [keyedSum, if_pos rfl, keyedSum_eq_zero hr]
      rfl
    rw [hhead]
    have htail : (rs.map rowKey).map (fun k =>
        GeoRow.mk k.1 (keyedSum rowKey GeoRow.count k (r :: rs)) k.2) =
        (rs.map rowKey).map (fun k =>
          GeoRow.mk k.1 (keyedSum rowKey GeoRow.count k rs) k.2) := by
      refine List.map_congr_left (fun k hk => ?_)
      have hne : ¬ rowKey r = k := fun hc => hr (hc ▸ hk)
      rw [keyedSum, if_neg hne, Nat.zero_add]
    rw [htail]
    have := ih hrs
    unfold aggregateRows at this
    rw [firstOccs_of_nodup hrs] at this
    rw [this]

/-- C6: a single event whose imposing country code is `EU` geo-aggregates
to exactly one row per EU member territory (27 rows), each inheriting the
full count of 1 (not divided), with no row keyed by `EU` or by `EUR`; the
hypothesis states that the ISO mapping sends no member territory to `EUR`
(true of both the CSV-backed and the fallback mapping). -/
theorem c6_bloc_expansion (m : String → Option String)
    (h : ∀ c ∈ euCountries, (m c).getD c ≠ "EUR") :
    ∃ rows, createWorldMapImposing m [some "EU"] = some rows ∧
      rows.length = 27 ∧
      (∀ c ∈ euCountries, GeoRow.mk c 1 ((m c).getD c) ∈ rows) ∧
      (∀ r ∈ rows, r.count = 1 ∧ r.country_code ≠ "EU" ∧
        r.iso3_code ≠ "EUR") := by
  refine ⟨euCountries.map (fun c => GeoRow.mk c 1 ((m c).getD c)), ?_, ?_, ?_, ?_⟩
  · have hpre : createWorldMapImposing m [some "EU"] =
        some (aggregateRows
          (euCountries.map (fun c => GeoRow.mk c 1 ((m c).getD c)))) := rfl
    rw [hpre]
    have hinj : Function.Injective
        (fun c : String => ((c, (m c).getD c) : String × String)) :=
      fun a b hab => congrArg Prod.fst hab
    have hnd : ((euCountries.map
        (fun c => GeoRow.mk c 1 ((m c).getD c))).map rowKey).Nodup := by
      rw [List.map_map]
      exact (by decide : euCountries.Nodup).map hinj
    rw [firstOccs_of_nodup_keys hnd]
  · rw [List.length_map]
    rfl
  · intro c hc
    exact List.mem_map_of_mem _ hc
  · intro r hr
    obtain ⟨c, hc, rfl⟩ := List.mem_map.1 hr
    have hnotEU : "EU" ∉ euCountries := by decide
    exact ⟨rfl, fun hceq => hnotEU (hceq ▸ hc), h c hc⟩

theorem c6_witness :
    ∃ rows, createWorldMapImposing fallbackIso2to3 [some "EU"] = some rows ∧
      rows.length = 27 ∧
      (∀ c ∈ euCountries,
        GeoRow.mk c 1 ((fallbackIso2to3 c).getD c) ∈ rows) ∧
      (∀ r ∈ rows, r.count = 1 ∧ r.country_code ≠ "EU" ∧
        r.iso3_code ≠ "EUR") :=
  c6_bloc_expansion fallbackIso2to3 (by decide)

/-- Numeric value of a list of decimal digit characters. -/
def digitsToNat (cs : List Char) : Nat :=
  cs.foldl (fun a c => a * 10 + (c.toNat - 48)) 0

/-- Parse the digits-dot-digits body of a Python float literal. -/
def parseMantissa (cs : List Char) : Option ℚ :=
  let intPart := cs.takeWhile Char.isDigit
  let rest := cs.dropWhile Char.isDigit
  match rest with
  | [] => if intPart.isEmpty then none else some (digitsToNat intPart)
  | '.' :: frac =>
      if frac.all Char.isDigit && !(intPart.isEmpty && frac.isEmpty) then
        some ((digitsToNat intPart : ℚ) +
          (digitsToNat frac : ℚ) / (10 : ℚ) ^ frac.length)
      else none
  | _ => none

/-- Parse an optionally signed float mantissa. -/
def parseSignedMantissa (cs : List Char) : Option ℚ :=
  match cs with
  | '+' :: rest => parseMantissa rest
  | '-' :: rest => (parseMantissa rest).map (fun q => -q)
  | _ => parseMantissa cs

/-- Parse an optionally signed decimal exponent. -/
def parseExp (cs : List Char) : Option ℤ :=
  match cs with
  | '+' :: ds =>
      if !ds.isEmpty && ds.all Char.isDigit then some (digitsToNat ds) else none
  | '-' :: ds =>
      if !ds.isEmpty && ds.all Char.isDigit then some (-(digitsToNat ds : ℤ))
      else none
  | ds =>
      if !ds.isEmpty && ds.all Char.isDigit then some (digitsToNat ds) else none

/-- Python `float(str)` idealized over the rationals: surrounding
whitespace is stripped, then an optionally signed decimal literal with an
optional fraction and optional exponent is accepted; anything else (such as
`"bad"`) raises, modelled as `none`.  The non-finite literals `inf`/`nan`
and digit-group underscores have no rational value and are outside the
model. -/
def pyFloatOfString (s : String) : Option ℚ :=
  let cs := (pyStrip s).toList
  let mant := cs.takeWhile (fun c => !(c == 'e' || c == 'E'))
  let rest := cs.dropWhile (fun c => !(c == 'e' || c == 'E'))
  match rest with
  | [] => parseSignedMantissa mant
  | _ :: ex =>
      match parseSignedMantissa mant, parseExp ex with
      | some q, some e => some (q * (10 : ℚ) ^ e)
      | _, _ => none

/-- Python `float(x)` on a `main_tariff_rate` value: numbers pass through,
strings are parsed. -/
def pyFloat : RateVal → Option ℚ
  | .num q => some q
  | .str s => pyFloatOfString s

/-- Floor of a rational: flooring integer division of numerator by
denominator (the value Python computes for these inputs). -/
def ratFloor (q : ℚ) : ℤ := q.num.fdiv q.den

/-- Round-half-to-even to an integer: the tie-breaking rule of Python
`round`. -/
def roundHalfEven (q : ℚ) : ℤ :=
  let f := ratFloor q
  if q - f < 1 / 2 then f
  else if 1 / 2 < q - f then f + 1
  else if f % 2 = 0 then f else f + 1

/-- Python `round(x, 2)` idealized over the rationals. -/
def round2 (q : ℚ) : ℚ :=
  (roundHalfEven (q * 100) : ℚ) / 100

lemma roundHalfEven_intCast (n : ℤ) : roundHalfEven ((n : ℚ)) = n := by
  simp only [roundHalfEven, ratFloor, Rat.num_intCast, Rat.den_intCast,
    Nat.cast_one, Int.fdiv_one, Int.cast_id, sub_self]
  rw [if_pos (by norm_num)]

lemma round2_int (q : ℚ) (n : ℤ) (h : q * 100 = (n : ℚ)) :
    round2 q = (n : ℚ) / 100 := by
  unfold round2
  rw [h, roundHalfEven_intCast]

/-- The average-tariff-rate computation of `calculate_event_statistics`
(src/utils/data_processing.py): collect `float(main_tariff_rate)` for every
event whose rate is not `None` and parses (the `try`/`except` silently
drops failures), then `round(sum/len, 2)` with `0` when nothing was
collected. -/
def avgTariffRate (events : List CleanedEvent) : ℚ :=
  let rates := events.filterMap (fun e => e.main_tariff_rate.bind pyFloat)
  round2 (if rates.isEmpty then 0 else rates.sum / rates.length)

/-- A cleaned event whose only non-default field is its main tariff rate. -/
def rateEvent (r : Option RateVal) : CleanedEvent :=
  { main_tariff_rate := r }

/-- C8: `avg_tariff_rate` is the 2-decimal-rounded mean of the
numerically-parseable `main_tariff_rate` values only: on rates
`[10, "20", "bad", None]` it is exactly 15; appending an event with an
unparseable or absent rate never changes it (not treated as zero); and it
is 0 when no rate parses. -/
theorem c8_avg_tariff_rate :
    avgTariffRate [rateEvent (some (RateVal.num 10)),
      rateEvent (some (RateVal.str "20")),
      rateEvent (some (RateVal.str "bad")), rateEvent none] = 15 ∧
    (∀ (events : List CleanedEvent) (e : CleanedEvent),
      e.main_tariff_rate.bind pyFloat = none →
      avgTariffRate (events ++ [e]) = avgTariffRate events) ∧
    (∀ events : List CleanedEvent,
      (∀ e ∈ events, e.main_tariff_rate.bind pyFloat = none) →
      avgTariffRate events = 0) := by
  refine ⟨?_, ?_, ?_⟩
  · have hrates : ([rateEvent (some (RateVal.num 10)),
        rateEvent (some (RateVal.str "20")),
        rateEvent (some (RateVal.str "bad")), rateEvent none].filterMap
        (fun e => e.main_tariff_rate.bind pyFloat)) =
        [(10 : ℚ), ((20 : ℕ) : ℚ)] := rfl
    have h1 : avgTariffRate [rateEvent (some (RateVal.num 10)),
        rateEvent (some (RateVal.str "20")),
        rateEvent (some (RateVal.str "bad")), rateEvent none] =
        round2 (([(10 : ℚ), ((20 : ℕ) : ℚ)]).sum /
          (([(10 : ℚ), ((20 : ℕ) : ℚ)]).length : ℚ)) := by
      unfold avgTariffRate
      rw [hrates]
      rfl
    rw [h1]
    have h2 : ([(10 : ℚ), ((20 : ℕ) : ℚ)]).sum /
        (([(10 : ℚ), ((20 : ℕ) : ℚ)]).length : ℚ) = 15 := by
      simp [List.sum_cons]
      norm_num
    rw [h2, round2_int 15 1500 (by norm_num)]
    norm_num
  · intro events e he
    simp only [avgTariffRate, List.filterMap_append]
    simp [List.filterMap, he]
  · intro events hall
    have h : events.filterMap (fun e => e.main_tariff_rate.bind pyFloat) = [] :=
      List.filterMap_eq_nil_iff.2 hall
    unfold avgTariffRate
    rw [h]
    show round2 0 = 0
    rw [round2_int 0 0 (by norm_num)]
    norm_num

theorem c8_witness :
    avgTariffRate ([rateEvent (some (RateVal.num 10))] ++
        [rateEvent (some (RateVal.str "bad"))]) =
      avgTariffRate [rateEvent (some (RateVal.num 10))] ∧
    avgTariffRate [rateEvent (some (RateVal.str "oops"))] = 0 :=
  ⟨c8_avg_tariff_rate.2.1 [rateEvent (some (RateVal.num 10))]
      (rateEvent (some (RateVal.str "bad"))) rfl,
   c8_avg_tariff_rate.2.2 [rateEvent (some (RateVal.str "oops"))]
      (fun e he => by
        rw [List.mem_singleton] at he
        subst he
        rfl)⟩
